import Mathlib

/-!
Verification of the simple linear-regression module (Regreesion.py).

The five operations of the module are embedded as Lean functions over
lists of rationals: exact rational arithmetic stands in for the
floating-point arithmetic of the source, and raising `ValueError` is
modelled by returning `Except.error RegError.invalidArgument`.
numpy's elementwise operations on equal-length arrays become
`List.zipWith` / `List.map`, and `np.mean l` becomes `l.sum / l.length`.
-/

namespace Regression

/-- The single error kind of the module: every raised `ValueError`
("InvalidArgument" in the specification) is this value. -/
inductive RegError where
  | invalidArgument
deriving DecidableEq, Repr

/-- Embedding of `np.mean`: the sum of the list divided by its length
(division by zero yields 0 under rational-division convention; every use
in the module is behind a non-emptiness check). -/
def mean (l : List ℚ) : ℚ := l.sum / (l.length : ℚ)

/-- Embedding of `linear_regression_coefficients` (fit): after the two
validation checks, slope `b1 = Σ xᵢ·(yᵢ − ȳ) / Σ (xᵢ − x̄)²` and intercept
`b0 = ȳ − b1·x̄`, returned as the two-element list `[b1, b0]`. -/
def linear_regression_coefficients (x y : List ℚ) : Except RegError (List ℚ) :=
  if x.length ≠ y.length then .error .invalidArgument
  else if x.length = 0 ∨ y.length = 0 then .error .invalidArgument
  else
    let x_mean := mean x
    let y_mean := mean y
    let b1 := (List.zipWith (fun a b => a * (b - y_mean)) x y).sum /
      ((x.map fun a => (a - x_mean) ^ 2).sum)
    let b0 := y_mean - b1 * x_mean
    .ok [b1, b0]

/-- Embedding of `linear_function` (predict): requires the coefficient
list to have exactly two elements `[b1, b0]` and maps `a ↦ b1·a + b0`
over `x`; any other coefficient-list shape is the `ValueError` branch. -/
def linear_function (x : List ℚ) (coef : List ℚ) : Except RegError (List ℚ) :=
  match coef with
  | [b1, b0] => .ok (x.map fun a => b1 * a + b0)
  | _ => .error .invalidArgument

/-- Embedding of `r_squared`: after the three validation checks it calls
`linear_function`, forms `SST = Σ (yᵢ − ȳ)²` and `SSE = Σ (yᵢ − y_predᵢ)²`,
and returns `1 − SSE / SST`. -/
def r_squared (x y : List ℚ) (coef : List ℚ) : Except RegError ℚ :=
  if x.length ≠ y.length then .error .invalidArgument
  else if x.length = 0 ∨ y.length = 0 then .error .invalidArgument
  else if coef.length ≠ 2 then .error .invalidArgument
  else
    (linear_function x coef).bind fun y_pred =>
      let total_variance := (y.map fun v => (v - mean y) ^ 2).sum
      let residual_variance := (List.zipWith (fun a b => (a - b) ^ 2) y y_pred).sum
      .ok (1 - residual_variance / total_variance)

/-- Embedding of `mean_squared_error`: after the two validation checks,
the mean of the squared componentwise differences. -/
def mean_squared_error (y_true y_pred : List ℚ) : Except RegError ℚ :=
  if y_true.length ≠ y_pred.length then .error .invalidArgument
  else if y_true.length = 0 ∨ y_pred.length = 0 then .error .invalidArgument
  else .ok ((List.zipWith (fun a b => (a - b) ^ 2) y_true y_pred).sum / (y_true.length : ℚ))

/-- Embedding of `root_mean_squared_error`: after its own two validation
checks (identical to those of `mean_squared_error`) it delegates to
`mean_squared_error` and takes the square root of the result. -/
noncomputable def root_mean_squared_error (y_true y_pred : List ℚ) :
    Except RegError ℝ :=
  if y_true.length ≠ y_pred.length then .error .invalidArgument
  else if y_true.length = 0 ∨ y_pred.length = 0 then .error .invalidArgument
  else Except.map (fun m : ℚ => Real.sqrt (m : ℝ)) (mean_squared_error y_true y_pred)

/-- Sum of squared residuals of a sequence `t` against a prediction `p`,
the quantity the least-squares claim compares. -/
def sse (t p : List ℚ) : ℚ := (List.zipWith (fun u v => (u - v) ^ 2) t p).sum

/-! ### Helper lemmas about the list sums appearing in the module -/

lemma zipWith_sub_sq_self (l : List ℚ) :
    (List.zipWith (fun a b => (a - b) ^ 2) l l).sum = 0 := by
  induction l with
  | nil => simp
  | cons a t ih => simp [ih]

lemma zipWith_sub_sq_comm (a b : List ℚ) :
    (List.zipWith (fun u v => (u - v) ^ 2) a b).sum =
      (List.zipWith (fun u v => (u - v) ^ 2) b a).sum := by
  induction a generalizing b with
  | nil => cases b <;> simp
  | cons x xs ih =>
      cases b with
      | nil => simp
      | cons y ys =>
          simp only [List.zipWith_cons_cons, List.sum_cons, ih ys]
          ring

lemma mean_squared_error_comm (a b : List ℚ) :
    mean_squared_error a b = mean_squared_error b a := by
  rcases eq_or_ne a.length b.length with h | h
  · rw [mean_squared_error, mean_squared_error, h, zipWith_sub_sq_comm]
  · rw [mean_squared_error, mean_squared_error, if_pos h, if_pos (Ne.symm h)]

lemma root_mean_squared_error_eq_map (a b : List ℚ) :
    root_mean_squared_error a b =
      Except.map (fun m : ℚ => Real.sqrt (m : ℝ)) (mean_squared_error a b) := by
  unfold root_mean_squared_error mean_squared_error
  split_ifs <;> simp [Except.map]

lemma linear_regression_coefficients_invalid (x y : List ℚ)
    (h : x.length ≠ y.length ∨ x.length = 0 ∨ y.length = 0) :
    linear_regression_coefficients x y = .error .invalidArgument := by
  unfold linear_regression_coefficients
  split_ifs <;> first | rfl | tauto

lemma r_squared_invalid (x y coef : List ℚ)
    (h : x.length ≠ y.length ∨ x.length = 0 ∨ y.length = 0) :
    r_squared x y coef = .error .invalidArgument := by
  unfold r_squared
  split_ifs <;> first | rfl | tauto

lemma mean_squared_error_invalid (x y : List ℚ)
    (h : x.length ≠ y.length ∨ x.length = 0 ∨ y.length = 0) :
    mean_squared_error x y = .error .invalidArgument := by
  unfold mean_squared_error
  split_ifs <;> first | rfl | tauto

lemma root_mean_squared_error_invalid (x y : List ℚ)
    (h : x.length ≠ y.length ∨ x.length = 0 ∨ y.length = 0) :
    root_mean_squared_error x y = .error .invalidArgument := by
  unfold root_mean_squared_error
  split_ifs <;> first | rfl | tauto

lemma length_cast_ne_zero (l : List ℚ) (h : l ≠ []) : (l.length : ℚ) ≠ 0 := by
  rw [Ne, Nat.cast_eq_zero, List.length_eq_zero]
  exact h

lemma sum_map_affine (x : List ℚ) (c1 c0 : ℚ) :
    (x.map fun a => c1 * a + c0).sum = c1 * x.sum + (x.length : ℚ) * c0 := by
  induction x with
  | nil => simp
  | cons a t ih =>
      simp only [List.map_cons, List.sum_cons, List.length_cons, ih]
      push_cast
      ring

lemma sum_map_sq_sub (x : List ℚ) (m : ℚ) :
    (x.map fun a => (a - m) ^ 2).sum =
      (x.map fun a => a ^ 2).sum - 2 * m * x.sum + (x.length : ℚ) * m ^ 2 := by
  induction x with
  | nil => simp
  | cons a t ih =>
      simp only [List.map_cons, List.sum_cons, List.length_cons, ih]
      push_cast
      ring

lemma sum_map_self_sub (x : List ℚ) (m : ℚ) :
    (x.map fun a => a * (a - m)).sum = (x.map fun a => a ^ 2).sum - m * x.sum := by
  induction x with
  | nil => simp
  | cons a t ih =>
      simp only [List.map_cons, List.sum_cons, ih]
      ring

lemma sum_map_sq_sub_nonneg (x : List ℚ) (m : ℚ) :
    0 ≤ (x.map fun a => (a - m) ^ 2).sum := by
  induction x with
  | nil => simp
  | cons a t ih =>
      simp only [List.map_cons, List.sum_cons]
      exact add_nonneg (sq_nonneg _) ih

lemma sum_map_mul_sub (y : List ℚ) (k m : ℚ) :
    (y.map fun b => k * (b - m)).sum = k * y.sum - (y.length : ℚ) * (k * m) := by
  induction y with
  | nil => simp
  | cons a t ih =>
      simp only [List.map_cons, List.sum_cons, List.length_cons, ih]
      push_cast
      ring

lemma sum_zipWith_mul_sub (x y : List ℚ) (m : ℚ) (h : x.length = y.length) :
    (List.zipWith (fun a b => a * (b - m)) x y).sum =
      (List.zipWith (fun a b => a * b) x y).sum - m * x.sum := by
  induction x generalizing y with
  | nil => simp
  | cons a t ih =>
      cases y with
      | nil => simp at h
      | cons b s =>
          have h' : t.length = s.length := by simpa using h
          simp only [List.zipWith_cons_cons, List.sum_cons, ih s h']
          ring

lemma sum_zipWith_centered_mul (x y : List ℚ) (k m : ℚ) (h : x.length = y.length) :
    (List.zipWith (fun a b => (a - k) * (b - m)) x y).sum =
      (List.zipWith (fun a b => a * b) x y).sum - m * x.sum - k * y.sum +
        (x.length : ℚ) * (k * m) := by
  induction x generalizing y with
  | nil =>
      have hy : y = [] := List.length_eq_zero.mp (by simpa using h.symm)
      subst hy
      simp
  | cons a t ih =>
      cases y with
      | nil => simp at h
      | cons b s =>
          have h' : t.length = s.length := by simpa using h
          simp only [List.zipWith_cons_cons, List.sum_cons, List.length_cons, ih s h']
          push_cast
          ring

lemma zipWith_self_eq_map (x : List ℚ) (f : ℚ → ℚ → ℚ) :
    List.zipWith f x x = x.map fun a => f a a := by
  induction x with
  | nil => simp
  | cons a t ih => simp [ih]

lemma sum_of_constant (x : List ℚ) (c : ℚ) (h : ∀ a ∈ x, a = c) :
    x.sum = (x.length : ℚ) * c := by
  induction x with
  | nil => simp
  | cons a t ih =>
      have ha : a = c := h a (by simp)
      have ht := ih fun b hb => h b (by simp [hb])
      simp only [List.sum_cons, List.length_cons, ha, ht]
      push_cast
      ring

lemma mean_of_constant (x : List ℚ) (c : ℚ) (hne : x ≠ []) (h : ∀ a ∈ x, a = c) :
    mean x = c := by
  unfold mean
  rw [sum_of_constant x c h]
  exact mul_div_cancel_left₀ c (length_cast_ne_zero x hne)

lemma sum_centered_sq_zero_of_constant (x : List ℚ) (c : ℚ) (hne : x ≠ [])
    (h : ∀ a ∈ x, a = c) :
    (x.map fun a => (a - mean x) ^ 2).sum = 0 := by
  have hm := mean_of_constant x c hne h
  apply List.sum_eq_zero
  intro q hq
  rcases List.mem_map.mp hq with ⟨a, ha, rfl⟩
  rw [h a ha, hm]
  ring

lemma mean_map_affine (x : List ℚ) (c1 c0 : ℚ) (hne : x ≠ []) :
    mean (x.map fun a => c1 * a + c0) = c1 * mean x + c0 := by
  have hn := length_cast_ne_zero x hne
  unfold mean
  rw [List.length_map, sum_map_affine]
  field_simp
  ring

lemma fit_valid_eq (x y : List ℚ) (hlen : x.length = y.length) (hne : x ≠ []) :
    linear_regression_coefficients x y =
      .ok [(List.zipWith (fun a b => a * (b - mean y)) x y).sum /
          (x.map fun a => (a - mean x) ^ 2).sum,
        mean y - (List.zipWith (fun a b => a * (b - mean y)) x y).sum /
            (x.map fun a => (a - mean x) ^ 2).sum * mean x] := by
  have hx0 : x.length ≠ 0 := by simpa [List.length_eq_zero] using hne
  have hy0 : y.length ≠ 0 := hlen ▸ hx0
  unfold linear_regression_coefficients
  rw [if_neg (by simp [hlen]), if_neg (by simp [hx0, hy0])]

lemma linear_function_pair (x : List ℚ) (b1 b0 : ℚ) :
    linear_function x [b1, b0] = .ok (x.map fun a => b1 * a + b0) := rfl

lemma r_squared_pair_eq (x y : List ℚ) (b1 b0 : ℚ)
    (hlen : x.length = y.length) (hne : x ≠ []) :
    r_squared x y [b1, b0] =
      .ok (1 -
        (List.zipWith (fun a b => (a - b) ^ 2) y (x.map fun a => b1 * a + b0)).sum /
          (y.map fun v => (v - mean y) ^ 2).sum) := by
  have hx0 : x.length ≠ 0 := by simpa [List.length_eq_zero] using hne
  have hy0 : y.length ≠ 0 := hlen ▸ hx0
  unfold r_squared
  rw [if_neg (by simp [hlen]), if_neg (by simp [hx0, hy0]), if_neg (by simp)]
  rfl

lemma sse_map_affine (x y : List ℚ) (u v : ℚ) (h : x.length = y.length) :
    sse y (x.map fun a => u * a + v) =
      (y.map fun b => b ^ 2).sum
        - 2 * u * (List.zipWith (fun a b => a * b) x y).sum
        - 2 * v * y.sum
        + u ^ 2 * (x.map fun a => a ^ 2).sum
        + 2 * (u * v) * x.sum
        + (x.length : ℚ) * v ^ 2 := by
  induction x generalizing y with
  | nil =>
      have hy : y = [] := List.length_eq_zero.mp (by simpa using h.symm)
      subst hy
      simp [sse]
  | cons a t ih =>
      cases y with
      | nil => simp at h
      | cons b s =>
          have h' : t.length = s.length := by simpa using h
          have ihs := ih s h'
          rw [sse] at ihs
          simp only [sse, List.map_cons, List.zipWith_cons_cons, List.sum_cons,
            List.length_cons, ihs]
          push_cast
          ring

/-! ### Claim theorems -/

lemma least_squares_scalar (n Sx Sy Qx Qy P D b1 b0 c1 c0 : ℚ)
    (hnpos : 0 < n) (hDnn : 0 ≤ D)
    (hDn : n * D = n * Qx - Sx ^ 2)
    (hE0 : n * b0 = Sy - b1 * Sx)
    (hE2 : b1 * (n * Qx - Sx ^ 2) = n * P - Sx * Sy) :
    Qy - 2 * b1 * P - 2 * b0 * Sy + b1 ^ 2 * Qx + 2 * (b1 * b0) * Sx + n * b0 ^ 2
      ≤ Qy - 2 * c1 * P - 2 * c0 * Sy + c1 ^ 2 * Qx + 2 * (c1 * c0) * Sx
        + n * c0 ^ 2 := by
  have hkey : n * ((Qy - 2 * c1 * P - 2 * c0 * Sy + c1 ^ 2 * Qx + 2 * (c1 * c0) * Sx
        + n * c0 ^ 2)
      - (Qy - 2 * b1 * P - 2 * b0 * Sy + b1 ^ 2 * Qx + 2 * (b1 * b0) * Sx
        + n * b0 ^ 2))
      = (c1 - b1) ^ 2 * (n * Qx - Sx ^ 2)
        + ((c1 - b1) * Sx + n * (c0 - b0)) ^ 2 := by
    linear_combination (2 * (c1 - b1)) * hE2 +
      (2 * (c1 - b1) * Sx + 2 * n * (c0 - b0)) * hE0
  have h1 : 0 ≤ (c1 - b1) ^ 2 * (n * Qx - Sx ^ 2) := by
    rw [← hDn]
    exact mul_nonneg (sq_nonneg _) (mul_nonneg hnpos.le hDnn)
  nlinarith [hkey, h1, sq_nonneg ((c1 - b1) * Sx + n * (c0 - b0)), hnpos]

/-- C8: fit fails with InvalidArgument exactly when the lengths differ or
a sequence is empty; when all x values are identical the divisor
`Σ (xᵢ − x̄)²` is zero yet fit still returns ok by unguarded division
(exact-arithmetic counterpart of the non-finite IEEE result). -/
theorem fit_error_exactly_on_invalid_lengths (x y : List ℚ) :
    ((∃ r, linear_regression_coefficients x y = .ok r) ↔
      (x.length = y.length ∧ x ≠ []))
    ∧ (¬(x.length = y.length ∧ x ≠ []) →
      linear_regression_coefficients x y = .error .invalidArgument)
    ∧ ((x.length = y.length ∧ x ≠ [] ∧ ∀ a ∈ x, ∀ b ∈ x, a = b) →
      (x.map fun a => (a - mean x) ^ 2).sum = 0 ∧
      ∃ r, linear_regression_coefficients x y = .ok r) := by
  have herr : ¬(x.length = y.length ∧ x ≠ []) →
      linear_regression_coefficients x y = .error .invalidArgument := by
    intro h
    rcases not_and_or.mp h with h | h
    · exact linear_regression_coefficients_invalid x y (Or.inl h)
    · rw [not_not] at h
      subst h
      exact linear_regression_coefficients_invalid [] y (Or.inr (Or.inl rfl))
  have hok : (∃ r, linear_regression_coefficients x y = .ok r) ↔
      (x.length = y.length ∧ x ≠ []) := by
    constructor
    · rintro ⟨r, hr⟩
      by_contra hn
      rw [herr hn] at hr
      exact Except.noConfusion hr
    · rintro ⟨hlen, hne⟩
      exact ⟨_, fit_valid_eq x y hlen hne⟩
  refine ⟨hok, herr, ?_⟩
  rintro ⟨hlen, hne, hconst⟩
  rcases x with _ | ⟨a0, t⟩
  · exact absurd rfl hne
  · have hc : ∀ a ∈ a0 :: t, a = a0 := fun a ha => hconst a ha a0 (by simp)
    exact ⟨sum_centered_sq_zero_of_constant (a0 :: t) a0 hne hc,
      hok.mpr ⟨hlen, hne⟩⟩

/-- Witness for C8: a length mismatch is rejected, and on the constant
sequence x = [2, 2] the divisor is zero yet fit succeeds. -/
theorem fit_error_exactly_on_invalid_lengths_witness :
    linear_regression_coefficients [1] [1, 2] = .error .invalidArgument ∧
    ((([2, 2] : List ℚ).map fun a => (a - mean [2, 2]) ^ 2).sum = 0 ∧
      ∃ r, linear_regression_coefficients [2, 2] [5, 7] = .ok r) :=
  ⟨(fit_error_exactly_on_invalid_lengths [1] [1, 2]).2.1 (by decide),
    (fit_error_exactly_on_invalid_lengths [2, 2] [5, 7]).2.2 (by decide)⟩

/-- C1: on valid inputs (equal nonzero length, nonzero divisor) fit
returns `b1 = Σ xᵢ·(yᵢ − ȳ) / Σ (xᵢ − x̄)²` and `b0 = ȳ − b1·x̄`; the
numerator with raw `xᵢ` equals the centered covariance numerator, because
`Σ x̄·(yᵢ − ȳ) = 0`. -/
theorem fit_computes_documented_formula (x y : List ℚ)
    (hlen : x.length = y.length) (hne : x ≠ [])
    (hden : (x.map fun a => (a - mean x) ^ 2).sum ≠ 0) :
    linear_regression_coefficients x y =
      .ok [(List.zipWith (fun a b => a * (b - mean y)) x y).sum /
          (x.map fun a => (a - mean x) ^ 2).sum,
        mean y - (List.zipWith (fun a b => a * (b - mean y)) x y).sum /
            (x.map fun a => (a - mean x) ^ 2).sum * mean x]
    ∧ (List.zipWith (fun a b => a * (b - mean y)) x y).sum =
        (List.zipWith (fun a b => (a - mean x) * (b - mean y)) x y).sum
    ∧ (y.map fun b => mean x * (b - mean y)).sum = 0 := by
  have hy : y ≠ [] := by
    intro h
    subst h
    exact hne (List.length_eq_zero.mp (by simpa using hlen))
  have hn : (y.length : ℚ) ≠ 0 := length_cast_ne_zero y hy
  refine ⟨fit_valid_eq x y hlen hne, ?_, ?_⟩
  · rw [sum_zipWith_mul_sub x y _ hlen, sum_zipWith_centered_mul x y _ _ hlen]
    simp only [mean, hlen]
    field_simp
    ring
  · rw [sum_map_mul_sub]
    simp only [mean, hlen]
    field_simp
    ring

/-- Witness for C1 at the data x = [1..5], y = [2, 4, 5, 4, 5]; the
formula evaluates to the coefficients (3/5, 11/5). -/
theorem fit_computes_documented_formula_witness :
    linear_regression_coefficients [1, 2, 3, 4, 5] [2, 4, 5, 4, 5] =
      .ok [3 / 5, 11 / 5] := by
  have h := fit_computes_documented_formula [1, 2, 3, 4, 5] [2, 4, 5, 4, 5]
    (by decide) (by decide) (by norm_num [mean])
  rw [h.1]
  norm_num [mean]

/-- C3 counterexample: on x = [1,2,3,4,5], y = [2,4,5,4,5] the code does
not return the values the worked example states — fit is not (0.2, 2.0),
r_squared at (0.2, 2.0) is not 0.24, and the mean squared error of the
stated pair is not 0.048. -/
theorem worked_example_claim_false :
    linear_regression_coefficients [1, 2, 3, 4, 5] [2, 4, 5, 4, 5] ≠
      .ok [0.2, 2.0] ∧
    r_squared [1, 2, 3, 4, 5] [2, 4, 5, 4, 5] [0.2, 2.0] ≠ .ok 0.24 ∧
    mean_squared_error [2, 4, 5, 4, 5] [2.2, 2.4, 2.6, 2.8, 3.0] ≠
      .ok 0.048 := by
  refine ⟨?_, ?_, ?_⟩
  · norm_num [linear_regression_coefficients, mean]
  · norm_num [r_squared, linear_function, mean, Except.bind]
  · norm_num [mean_squared_error]

/-- C3 amended: the values the code actually produces on that data:
fit = (0.6, 2.2); predict(x, (0.2, 2.0)) = [2.2, 2.4, 2.6, 2.8, 3.0]
(this part of the example is correct); r_squared(x, y, (0.2, 2.0)) = −1.3;
mean_squared_error = 2.76; root_mean_squared_error = √2.76 ≈ 1.661. -/
theorem worked_example_actual_values :
    linear_regression_coefficients [1, 2, 3, 4, 5] [2, 4, 5, 4, 5] =
      .ok [0.6, 2.2] ∧
    linear_function [1, 2, 3, 4, 5] [0.2, 2.0] =
      .ok [2.2, 2.4, 2.6, 2.8, 3.0] ∧
    r_squared [1, 2, 3, 4, 5] [2, 4, 5, 4, 5] [0.2, 2.0] = .ok (-1.3) ∧
    mean_squared_error [2, 4, 5, 4, 5] [2.2, 2.4, 2.6, 2.8, 3.0] = .ok 2.76 ∧
    root_mean_squared_error [2, 4, 5, 4, 5] [2.2, 2.4, 2.6, 2.8, 3.0] =
      .ok (Real.sqrt 2.76) := by
  refine ⟨?_, ?_, ?_, ?_, ?_⟩
  · norm_num [linear_regression_coefficients, mean]
  · norm_num [linear_function]
  · norm_num [r_squared, linear_function, mean, Except.bind]
  · norm_num [mean_squared_error]
  · rw [root_mean_squared_error_eq_map,
      show mean_squared_error [2, 4, 5, 4, 5] [2.2, 2.4, 2.6, 2.8, 3.0] =
        .ok 2.76 by norm_num [mean_squared_error]]
    simp only [Except.map]
    norm_num

/-- C5: every one of the five operations raises InvalidArgument when given
empty sequences (for predict, an empty coefficient list), and fit,
r_squared, mean_squared_error and root_mean_squared_error raise it when
their paired sequences differ in length. -/
theorem operations_reject_empty_and_mismatched (x y coef : List ℚ) :
    ((x = [] ∨ y = []) →
      linear_regression_coefficients x y = .error .invalidArgument ∧
      r_squared x y coef = .error .invalidArgument ∧
      mean_squared_error x y = .error .invalidArgument ∧
      root_mean_squared_error x y = .error .invalidArgument)
    ∧ (coef = [] → linear_function x coef = .error .invalidArgument)
    ∧ (x.length ≠ y.length →
      linear_regression_coefficients x y = .error .invalidArgument ∧
      r_squared x y coef = .error .invalidArgument ∧
      mean_squared_error x y = .error .invalidArgument ∧
      root_mean_squared_error x y = .error .invalidArgument) := by
  refine ⟨fun h => ?_, fun h => ?_, fun h => ?_⟩
  · have hc : x.length ≠ y.length ∨ x.length = 0 ∨ y.length = 0 := by
      rcases h with h | h <;> subst h <;> simp
    exact ⟨linear_regression_coefficients_invalid x y hc, r_squared_invalid x y coef hc,
      mean_squared_error_invalid x y hc, root_mean_squared_error_invalid x y hc⟩
  · subst h; rfl
  · have hc : x.length ≠ y.length ∨ x.length = 0 ∨ y.length = 0 := Or.inl h
    exact ⟨linear_regression_coefficients_invalid x y hc, r_squared_invalid x y coef hc,
      mean_squared_error_invalid x y hc, root_mean_squared_error_invalid x y hc⟩

/-- Witness for C5 at `x = []`, `y = [1]`, `coef = []` (for the empty
branch and the predict branch) and at `x = [1]`, `y = [1, 2]` (for the
length-mismatch branch). -/
theorem operations_reject_empty_and_mismatched_witness :
    (linear_regression_coefficients [] [1] = .error .invalidArgument ∧
      r_squared [] [1] [] = .error .invalidArgument ∧
      mean_squared_error [] [1] = .error .invalidArgument ∧
      root_mean_squared_error [] [1] = .error .invalidArgument)
    ∧ linear_function [3] [] = .error .invalidArgument
    ∧ (linear_regression_coefficients [1] [1, 2] = .error .invalidArgument ∧
      r_squared [1] [1, 2] [] = .error .invalidArgument ∧
      mean_squared_error [1] [1, 2] = .error .invalidArgument ∧
      root_mean_squared_error [1] [1, 2] = .error .invalidArgument) :=
  ⟨(operations_reject_empty_and_mismatched [] [1] []).1 (Or.inl rfl),
    (operations_reject_empty_and_mismatched [3] [] []).2.1 rfl,
    (operations_reject_empty_and_mismatched [1] [1, 2] []).2.2 (by decide)⟩

/-- C6: predict (linear_function) fails with InvalidArgument exactly when
the coefficient list does not have two elements; on a pair `[b1, b0]` it
returns the map `a ↦ b1·a + b0` over `x`, whose length (and order)
matches `x`, so an empty `x` yields an empty output without error. -/
theorem predict_requires_coefficient_pair (x coef : List ℚ) :
    ((∃ r, linear_function x coef = .ok r) ↔ coef.length = 2)
    ∧ (coef.length ≠ 2 → linear_function x coef = .error .invalidArgument)
    ∧ (∀ b1 b0, coef = [b1, b0] →
        linear_function x coef = .ok (x.map fun a => b1 * a + b0))
    ∧ (∀ r, linear_function x coef = .ok r → r.length = x.length) := by
  rcases coef with _ | ⟨b1, _ | ⟨b0, _ | ⟨c, t⟩⟩⟩ <;>
    simp [linear_function]

/-- Witness for C6: an empty coefficient list is rejected, and a proper
pair is applied pointwise (also on the empty `x`). -/
theorem predict_requires_coefficient_pair_witness :
    linear_function [1, 2] [] = .error .invalidArgument ∧
    linear_function ([1, 2] : List ℚ) [3, 4] = .ok [7, 10] ∧
    linear_function ([] : List ℚ) [3, 4] = .ok [] := by
  refine ⟨(predict_requires_coefficient_pair [1, 2] []).2.1 (by decide), ?_, ?_⟩
  · have h := (predict_requires_coefficient_pair [1, 2] [3, 4]).2.2.1 3 4 rfl
    rw [h]; norm_num
  · exact (predict_requires_coefficient_pair [] [3, 4]).2.2.1 3 4 rfl

/-- C7: root_mean_squared_error is the square root of mean_squared_error,
and it errors exactly when mean_squared_error errors (`Except.map` sends
an error to the same error and an ok value to the ok square root). -/
theorem rmse_is_sqrt_of_mse (a b : List ℚ) :
    root_mean_squared_error a b =
      Except.map (fun m : ℚ => Real.sqrt (m : ℝ)) (mean_squared_error a b) :=
  root_mean_squared_error_eq_map a b

/-- C9: mean_squared_error of a non-empty sequence against itself is 0. -/
theorem mse_identical_inputs_zero (y : List ℚ) (h : y ≠ []) :
    mean_squared_error y y = .ok 0 := by
  unfold mean_squared_error
  rw [if_neg (by simp), if_neg (by simp [List.length_eq_zero, h]),
    zipWith_sub_sq_self]
  norm_num

/-- Witness for C9 at `y = [1, 2]`. -/
theorem mse_identical_inputs_zero_witness :
    mean_squared_error [1, 2] [1, 2] = .ok 0 :=
  mse_identical_inputs_zero [1, 2] (by decide)

/-- C10: mean_squared_error is symmetric in its two arguments, and hence
so is root_mean_squared_error. -/
theorem mse_and_rmse_symmetric (a b : List ℚ) (hlen : a.length = b.length)
    (hne : a ≠ []) :
    mean_squared_error a b = mean_squared_error b a ∧
    root_mean_squared_error a b = root_mean_squared_error b a := by
  refine ⟨mean_squared_error_comm a b, ?_⟩
  rw [root_mean_squared_error_eq_map, root_mean_squared_error_eq_map,
    mean_squared_error_comm]

/-- Witness for C10 at `a = [1, 2]`, `b = [3, 5]`. -/
theorem mse_and_rmse_symmetric_witness :
    mean_squared_error [1, 2] [3, 5] = mean_squared_error [3, 5] [1, 2] ∧
    root_mean_squared_error [1, 2] [3, 5] = root_mean_squared_error [3, 5] [1, 2] :=
  mse_and_rmse_symmetric [1, 2] [3, 5] (by decide) (by decide)

/-- C4: when y lies exactly on a line of x (and neither of the two
divisors that arise — fit's `Σ (xᵢ − x̄)²` and r_squared's SST — is zero,
the cases the specification acknowledges as non-finite results), fit
recovers the line exactly and r_squared of the fitted coefficients is 1. -/
theorem r_squared_one_on_perfect_fit (x y : List ℚ) (c1 c0 : ℚ)
    (hlen : x.length = y.length) (hne : x ≠ [])
    (hline : y = x.map fun a => c1 * a + c0)
    (hden : (x.map fun a => (a - mean x) ^ 2).sum ≠ 0)
    (hsst : (y.map fun v => (v - mean y) ^ 2).sum ≠ 0) :
    ∃ coef, linear_regression_coefficients x y = .ok coef ∧
      r_squared x y coef = .ok 1 := by
  subst hline
  have hmean := mean_map_affine x c1 c0 hne
  have hnum : (List.zipWith
      (fun a b => a * (b - mean (x.map fun a => c1 * a + c0))) x
      (x.map fun a => c1 * a + c0)).sum
      = c1 * (x.map fun a => (a - mean x) ^ 2).sum := by
    rw [hmean, List.zipWith_map_right, zipWith_self_eq_map]
    have hfun : (fun a : ℚ => a * (c1 * a + c0 - (c1 * mean x + c0))) =
        fun a : ℚ => c1 * (a * (a - mean x)) := by
      funext a
      ring
    rw [hfun, List.sum_map_mul_left, sum_map_self_sub, sum_map_sq_sub]
    have hn := length_cast_ne_zero x hne
    simp only [mean]
    field_simp
    ring
  have hfit := fit_valid_eq x (x.map fun a => c1 * a + c0) hlen hne
  rw [hnum, mul_div_assoc, div_self hden, mul_one] at hfit
  have hb0 : mean (x.map fun a => c1 * a + c0) - c1 * mean x = c0 := by
    rw [hmean]
    ring
  rw [hb0] at hfit
  refine ⟨[c1, c0], hfit, ?_⟩
  rw [r_squared_pair_eq x (x.map fun a => c1 * a + c0) c1 c0 hlen hne,
    zipWith_sub_sq_self, zero_div, sub_zero]

/-- Witness for C4 at x = [1, 2], y = [3, 5] = 2·x + 1: fit returns the
exact line and r_squared is 1. -/
theorem r_squared_one_on_perfect_fit_witness :
    ∃ coef, linear_regression_coefficients [1, 2] [3, 5] = .ok coef ∧
      r_squared [1, 2] [3, 5] coef = .ok 1 :=
  r_squared_one_on_perfect_fit [1, 2] [3, 5] 2 1 (by decide) (by decide)
    (by norm_num) (by norm_num [mean]) (by norm_num [mean])

/-- C2: on valid inputs with nonzero divisor (non-constant x; the
constant-x case is the spec-acknowledged non-finite result), the sum of
squared residuals of y against predict(x, fit(x, y)) is at most the sum
of squared residuals of y against any line c1·x + c0. -/
theorem fit_minimizes_sum_squared_residuals (x y : List ℚ)
    (hlen : x.length = y.length) (hne : x ≠ [])
    (hden : (x.map fun a => (a - mean x) ^ 2).sum ≠ 0) (c1 c0 : ℚ) :
    ∃ coef p, linear_regression_coefficients x y = .ok coef ∧
      linear_function x coef = .ok p ∧
      sse y p ≤ sse y (x.map fun a => c1 * a + c0) := by
  have hnpos : (0 : ℚ) < (x.length : ℚ) := by
    have h := List.length_pos.mpr hne
    exact_mod_cast h
  have hn : (x.length : ℚ) ≠ 0 := ne_of_gt hnpos
  have hny : (y.length : ℚ) ≠ 0 := by rw [← hlen]; exact hn
  refine ⟨_, _, fit_valid_eq x y hlen hne, linear_function_pair x _ _, ?_⟩
  rw [sse_map_affine x y _ _ hlen, sse_map_affine x y c1 c0 hlen]
  have hxb : (x.length : ℚ) * mean x = x.sum := by
    simp only [mean]
    field_simp
  have hyb : (x.length : ℚ) * mean y = y.sum := by
    simp only [mean, hlen]
    field_simp
  have hDexp := sum_map_sq_sub x (mean x)
  have hDn : (x.length : ℚ) * (x.map fun a => (a - mean x) ^ 2).sum =
      (x.length : ℚ) * (x.map fun a => a ^ 2).sum - x.sum ^ 2 := by
    linear_combination ((x.length : ℚ)) * hDexp +
      ((x.length : ℚ) * mean x - x.sum) * hxb
  have hNexp := sum_zipWith_mul_sub x y (mean y) hlen
  have hNn : (x.length : ℚ) * (List.zipWith (fun a b => a * (b - mean y)) x y).sum =
      (x.length : ℚ) * (List.zipWith (fun a b => a * b) x y).sum - x.sum * y.sum := by
    linear_combination ((x.length : ℚ)) * hNexp - x.sum * hyb
  have hE0 : (x.length : ℚ) *
      (mean y - (List.zipWith (fun a b => a * (b - mean y)) x y).sum /
        (x.map fun a => (a - mean x) ^ 2).sum * mean x) =
      y.sum - (List.zipWith (fun a b => a * (b - mean y)) x y).sum /
        (x.map fun a => (a - mean x) ^ 2).sum * x.sum := by
    linear_combination hyb -
      ((List.zipWith (fun a b => a * (b - mean y)) x y).sum /
        (x.map fun a => (a - mean x) ^ 2).sum) * hxb
  have hE2 : (List.zipWith (fun a b => a * (b - mean y)) x y).sum /
        (x.map fun a => (a - mean x) ^ 2).sum *
        ((x.length : ℚ) * (x.map fun a => a ^ 2).sum - x.sum ^ 2) =
      (x.length : ℚ) * (List.zipWith (fun a b => a * b) x y).sum -
        x.sum * y.sum := by
    rw [← hDn, ← hNn]
    field_simp
    ring
  exact least_squares_scalar (x.length : ℚ) x.sum y.sum
    ((x.map fun a => a ^ 2).sum) ((y.map fun b => b ^ 2).sum)
    ((List.zipWith (fun a b => a * b) x y).sum)
    ((x.map fun a => (a - mean x) ^ 2).sum)
    ((List.zipWith (fun a b => a * (b - mean y)) x y).sum /
      (x.map fun a => (a - mean x) ^ 2).sum)
    (mean y - (List.zipWith (fun a b => a * (b - mean y)) x y).sum /
      (x.map fun a => (a - mean x) ^ 2).sum * mean x)
    c1 c0 hnpos (sum_map_sq_sub_nonneg x (mean x)) hDn hE0 hE2

/-- Witness for C2 at x = [1..5], y = [2, 4, 5, 4, 5] against the
mean-only competitor line 0·x + 4. -/
theorem fit_minimizes_sum_squared_residuals_witness :
    ∃ coef p,
      linear_regression_coefficients [1, 2, 3, 4, 5] [2, 4, 5, 4, 5] = .ok coef ∧
      linear_function [1, 2, 3, 4, 5] coef = .ok p ∧
      sse [2, 4, 5, 4, 5] p ≤
        sse [2, 4, 5, 4, 5] (([1, 2, 3, 4, 5] : List ℚ).map fun a => 0 * a + 4) :=
  fit_minimizes_sum_squared_residuals [1, 2, 3, 4, 5] [2, 4, 5, 4, 5]
    (by decide) (by decide) (by norm_num [mean]) 0 4

end Regression
